import Mathlib

/-!
Verification of the module-assembly stage of the header translator
(`crates/header-translator/src/library.rs`): identifier sanitization,
the aggregator rendering (`impl fmt::Display for Library`) and the output
operation (`Library::output`), embedded shallowly over lists and strings.
-/

namespace HeaderTranslator

/-- Embeds `clean_file_name` (library.rs:11-13): `name.replace('+', "_")`,
replacing every occurrence of the character `+` by an underscore. -/
def clean_file_name (name : String) : String :=
  ⟨name.data.map (fun c => if c = '+' then '_' else c)⟩

/-- Modelled from the spec: the set of capability flags a Statement needs
(the return type of `required_features()`, which lives outside `src/`).
Spec §3: `required_capabilities: Set<CapabilityFlag>`, treated as an opaque
pre-computed value. -/
structure Features where
  flags : List String
deriving DecidableEq

/-- Modelled from the spec: the capability-gate formatter `cfg_gate_ln`
(outside `src/`). Spec §4.3: an empty capability set produces no prefix;
a non-empty set produces a conjunction gate requiring every listed
capability, emitted as a line prefixed to the gated item. -/
def Features.cfg_gate_ln (fs : Features) : String :=
  if fs.flags.isEmpty then ""
  else "#[cfg(all(" ++ String.intercalate (", ")
    (fs.flags.map (fun fl => "feature = \"" ++ fl ++ "\"")) ++ "))]\n"

/-- The optional exported item of a Statement (the value returned by
`stmt.provided_item()`; its type lives outside `src/`). `library.rs` reads
its fields `name` and `file_name` (an optional owning-file identity),
matching spec §3 `exported_symbol: Option of name and owning_file`. -/
structure ProvidedItem where
  name : String
  file_name : Option String
deriving DecidableEq

/-- One translated declaration. `required_features` and `provided_item` are
the accessors `library.rs` calls on a `Stmt`; `rendered` is the opaque
textual form produced by the external rendering collaborator (spec §6). -/
structure Stmt where
  required_features : Features
  provided_item : Option ProvidedItem
  rendered : String
deriving DecidableEq

/-- An ordered collection of Statements from one header
(`crate::file::File`; `library.rs` uses only its `stmts` sequence). -/
structure File where
  stmts : List Stmt
deriving DecidableEq

/-- Modelled from the spec: the text one Statement contributes to its
file's unit. Spec §4.3(a): the statement's own rendering is gated by the
capability gate formatted from its stored `required_capabilities`. -/
def stmt_unit_text (s : Stmt) : String :=
  s.required_features.cfg_gate_ln ++ s.rendered

/-- Concatenation of statement fragments in declaration order. -/
def render_stmts : List Stmt → String
  | [] => ""
  | s :: rest => stmt_unit_text s ++ render_stmts rest

/-- Modelled from the spec: per-file unit rendering (`file.to_string()`;
the `File` Display impl lives outside `src/`). Spec §4.2: statements are
rendered in preserved order into one unit; each statement contributes its
gated fragment. -/
def File.render (file : File) : String :=
  render_stmts file.stmts

/-- Package metadata (`crate::config::LibraryData`, outside `src/`): the
only field `library.rs` reads is `cfg_apple_link`; `true` realises the
spec's `PlatformConditional` linkage style and `false` its
`Unconditional` style. -/
structure LibraryData where
  cfg_apple_link : Bool
deriving DecidableEq

/-- `Library` (library.rs:15-20). `files` embeds the
`BTreeMap<String, File>` as an association list kept sorted by raw key in
lexicographic order — the order in which the map iterates. -/
structure Library where
  files : List (String × File)
  link_name : String
  data : LibraryData
deriving DecidableEq

/-- `BTreeMap::insert` on the sorted-association-list embedding: keeps keys
strictly ascending in lexicographic character order (Rust's `Ord` for
`String`, embedded as the lexicographic order on the character lists) and
replaces the value at an existing key. -/
def insertSorted (k : String) (v : File) : List (String × File) → List (String × File)
  | [] => [(k, v)]
  | (k2, v2) :: rest =>
    if k.data < k2.data then (k, v) :: (k2, v2) :: rest
    else if k = k2 then (k, v) :: rest
    else (k2, v2) :: insertSorted k v rest

/-- Builds a `Library` the way upstream does: starting from the empty map
(`Library::new`) and inserting each produced `File` in arrival order. -/
def Library.ofList (l : List (String × File)) (link_name : String) (data : LibraryData) : Library :=
  ⟨l.foldl (fun m p => insertSorted p.1 p.2 m) [], link_name, data⟩

/-- The fixed banner and lint-suppression lines the aggregator starts with
(library.rs:47-82), ending with the blank line preceding the linkage
directive. -/
def preamble_lines (link_name : String) : List String :=
  ["// This file has been automatically generated by \x60objc2\x60\x27s \x60header-translator\x60.",
   "// DO NOT EDIT",
   "",
   "//! # Bindings to the \x60" ++ link_name ++ "\x60 framework",
   "#![allow(unused_imports)]",
   "#![allow(deprecated)]",
   "#![allow(non_snake_case)]",
   "#![allow(non_camel_case_types)]",
   "#![allow(non_upper_case_globals)]",
   "#![allow(missing_docs)]",
   "#![allow(clippy::too_many_arguments)]",
   "#![allow(clippy::type_complexity)]",
   "#![allow(clippy::upper_case_acronyms)]",
   "#![allow(clippy::identity_op)]",
   "#![allow(clippy::missing_safety_doc)]",
   ""]

/-- The linkage-directive line(s) (library.rs:84-99): with `cfg_apple_link`
set, a single directive wrapped in a platform-conditional attribute;
otherwise a single unconditional directive. -/
def linkage_directive_lines (lib : Library) : List String :=
  if lib.data.cfg_apple_link then
    ["#[cfg_attr(feature = \"apple\", link(name = \"" ++ lib.link_name ++ "\", kind = \"framework\"))]"]
  else
    ["#[link(name = \"" ++ lib.link_name ++ "\", kind = \"framework\")]"]

/-- The empty extern linkage scope emitted right after the directive
(library.rs:100): an anchor for the linker that declares no symbols. -/
def extern_anchor_line : String := "extern \"C\" \x7b\x7d"

/-- The path-attribute line binding a sanitized name to its unit file. -/
def path_attr_line (n : String) : String := "#[path = \"" ++ n ++ ".rs\"]"

/-- The module-declaration line for a sanitized name. -/
def mod_decl_line (n : String) : String := "mod __" ++ n ++ ";"

/-- The module-declaration section (library.rs:102-106): for each map key in
iteration (ascending raw-key) order, a path attribute and a module
declaration, both over the sanitized name. -/
def mod_decl_lines (lib : Library) : List String :=
  lib.files.flatMap (fun p =>
    [path_attr_line (clean_file_name p.1), mod_decl_line (clean_file_name p.1)])

/-- Embeds `item.name.starts_with('_')` (library.rs:119): whether the first
character of the name is an underscore. -/
def starts_with_underscore (name : String) : Bool :=
  match name.data with
  | [] => false
  | c :: _ => c = '_'

/-- The visibility chosen for a re-export (library.rs:119-123):
`pub(crate)` when the symbol name starts with an underscore, `pub`
otherwise. -/
def visibility (name : String) : String :=
  if starts_with_underscore name then "pub(crate)" else "pub"

/-- The re-export text for one exported item under iterating key `k`
(library.rs:117-131): the capability gate, then
`<vis> use self::__<clean k>::\x7b<name>\x7d;`. -/
def reexport_text (k : String) (s : Stmt) (item : ProvidedItem) : String :=
  s.required_features.cfg_gate_ln ++ visibility item.name ++ " use self::__" ++
    clean_file_name k ++ "::\x7b" ++ item.name ++ "\x7d;"

/-- Re-exports contributed by one file's statements in declaration order
(library.rs:111-133). `none` embeds the `assert_eq!` panic at line 115: an
exported item whose recorded `file_name` is not the iterating key aborts
rendering. -/
def file_reexports (k : String) : List Stmt → Option String
  | [] => some ("")
  | s :: rest =>
    match s.provided_item with
    | none => file_reexports k rest
    | some item =>
      if item.file_name = some k then
        (file_reexports k rest).map (fun r => reexport_text k s item ++ r)
      else none

/-- The whole re-export section, files in map order (library.rs:110). -/
def reexport_section : List (String × File) → Option String
  | [] => some ("")
  | (k, file) :: rest =>
    match file_reexports k file.stmts with
    | none => none
    | some a => (reexport_section rest).map (fun b => a ++ b)

/-- The aggregator's line-structured part in emission order
(library.rs:47-107): preamble, linkage directive(s), extern anchor, blank
line, module declarations, blank line. -/
def aggregator_lines (lib : Library) : List String :=
  preamble_lines lib.link_name ++ linkage_directive_lines lib ++
    [extern_anchor_line, ""] ++ mod_decl_lines lib ++ [""]

/-- Joins lines as `writeln!` does: every line followed by a newline. -/
def joinln : List String → String
  | [] => ""
  | l :: rest => l ++ "\n" ++ joinln rest

/-- `impl fmt::Display for Library` (library.rs:46-137) as a function to
`Option String`: `none` embeds the `assert_eq!` abort, `some` the rendered
aggregator (each structured line followed by a newline, then the re-export
section, whose entries carry their own line breaks). -/
def Library.render (lib : Library) : Option String :=
  (reexport_section lib.files).map
    (fun re => joinln (aggregator_lines lib) ++ re)

/-- A file-system state: newest-first association list of path ↦ content;
a write prepends, shadowing (fully overwriting) any older content. -/
abbrev FS := List (String × String)

/-- Reads the current content at a path. -/
def fsGet : FS → String → Option String
  | [], _ => none
  | (p, c) :: rest, q => if q = p then some c else fsGet rest q

/-- `fs::write`: creates or truncates, leaving exactly the new content. -/
def fsWrite (fs : FS) (p c : String) : FS := (p, c) :: fs

/-- The per-file output path (library.rs:33-35): `path.join(name)` followed
by `set_extension("rs")`, which for header-derived base names (no path
separator, no `.` in the name) is `dir/name.rs`. -/
def unitPath (dir n : String) : String := dir ++ "/" ++ n ++ ".rs"

/-- The aggregator path `path.join("mod.rs")` (library.rs:39). -/
def modPath (dir : String) : String := dir ++ "/mod.rs"

/-- How a run ends: success, a propagated I/O error carrying the failing
path, or the `assert_eq!` panic raised while rendering the aggregator. -/
inductive Outcome where
  | ok : Outcome
  | ioError : String → Outcome
  | panicked : Outcome
deriving DecidableEq

/-- The file system reached by a run together with its outcome. -/
structure RunResult where
  fs : FS
  outcome : Outcome
deriving DecidableEq

/-- The per-file write loop of `Library::output` (library.rs:32-36): writes
each file's rendered unit at its sanitized path in map order, stopping at
the first path in `bad` (the storage-failure oracle) with that write's
error. Returns the file system reached and the error, if any. -/
def writeFiles (bad : List String) (dir : String) : List (String × File) → FS → FS × Option String
  | [], fs => (fs, none)
  | (name, file) :: rest, fs =>
    let p := unitPath dir (clean_file_name name)
    if bad.contains p then (fs, some p)
    else writeFiles bad dir rest (fsWrite fs p file.render)

/-- `Library::output` (library.rs:31-43): the per-file writes (propagating
the first error via `?`), then `fs::write(path.join("mod.rs"),
self.to_string())`, which panics if rendering aborts and otherwise
truncates and rewrites the aggregator in full. -/
def Library.output (lib : Library) (bad : List String) (dir : String) (fs : FS) : RunResult :=
  match writeFiles bad dir lib.files fs with
  | (fs2, some e) => ⟨fs2, .ioError e⟩
  | (fs2, none) =>
    match lib.render with
    | none => ⟨fs2, .panicked⟩
    | some s =>
      if bad.contains (modPath dir) then ⟨fs2, .ioError (modPath dir)⟩
      else ⟨fsWrite fs2 (modPath dir) s, .ok⟩

/-- Pointwise idempotence of the character substitution underlying the
sanitizer. -/
theorem clean_char_idem (c : Char) :
    (if (if c = '+' then '_' else c) = '+' then '_' else (if c = '+' then '_' else c)) =
      (if c = '+' then '_' else c) := by
  by_cases h : c = '+' <;> simp [h]

/-- Claim C5: the identifier sanitizer is idempotent — applying it twice
yields the same result as applying it once — and on the example
`AVFoundation+Private` it yields `AVFoundation_Private`, which sanitizes to
itself. -/
theorem C5_sanitizer_idempotent :
    (∀ name : String, clean_file_name (clean_file_name name) = clean_file_name name) ∧
    clean_file_name ("AVFoundation+Private") = "AVFoundation_Private" ∧
    clean_file_name ("AVFoundation_Private") = "AVFoundation_Private" := by
  refine ⟨fun name => ?_, by decide, by decide⟩
  unfold clean_file_name
  simp only [List.map_map]
  congr 1
  apply List.map_congr_left
  intro c _
  exact clean_char_idem c

/-- Claim C3: in every re-export line the visibility is computed from the
exported symbol's name alone: `pub(crate)` exactly when the name starts
with the `_` marker, `pub` otherwise; `_NSPrivateHelper` gets `pub(crate)`
and `NSObject` gets `pub`. -/
theorem C3_visibility_pure_function :
    (∀ (k : String) (s : Stmt) (item : ProvidedItem),
      reexport_text k s item =
        s.required_features.cfg_gate_ln ++ visibility item.name ++ " use self::__" ++
          clean_file_name k ++ "::\x7b" ++ item.name ++ "\x7d;") ∧
    (∀ name : String,
      (visibility name = "pub(crate)" ↔ starts_with_underscore name = true) ∧
      (visibility name = "pub" ↔ starts_with_underscore name = false)) ∧
    visibility ("_NSPrivateHelper") = "pub(crate)" ∧
    visibility ("NSObject") = "pub" := by
  refine ⟨fun k s item => rfl, fun name => ?_, by decide, by decide⟩
  by_cases h : starts_with_underscore name <;> simp [visibility, h]

/-- A fixed library with `PlatformConditional` linkage style, used for
concrete evaluations. -/
def libPlatformCond : Library := ⟨[], "Foundation", ⟨true⟩⟩

/-- Claim C2 counterexample: with `linkage_style = PlatformConditional`
(`cfg_apple_link = true`) the aggregator emits a single conditional
linkage-directive line, not two linkage directive forms. -/
theorem C2_counterexample :
    libPlatformCond.data.cfg_apple_link = true ∧
    (linkage_directive_lines libPlatformCond).length = 1 ∧
    ¬ (linkage_directive_lines libPlatformCond).length = 2 := by
  refine ⟨rfl, rfl, by decide⟩

/-- Claim C2 (amended): when `linkage_style` is `PlatformConditional` the
aggregator emits a single linkage directive wrapped in a platform-capability
attribute, so it takes effect only on the native platform and the
compatibility runtime receives no linkage directive; when `Unconditional`
it emits a single unconditional directive. In either case the directive
references `link_name` verbatim and is immediately followed by the empty
extern linkage scope declaring no symbols. -/
theorem C2_amended (lib : Library) :
    (lib.data.cfg_apple_link = true →
      linkage_directive_lines lib =
        ["#[cfg_attr(feature = \"apple\", link(name = \"" ++ lib.link_name ++ "\", kind = \"framework\"))]"]) ∧
    (lib.data.cfg_apple_link = false →
      linkage_directive_lines lib =
        ["#[link(name = \"" ++ lib.link_name ++ "\", kind = \"framework\")]"]) ∧
    (linkage_directive_lines lib).length = 1 ∧
    (∃ pre, aggregator_lines lib =
      pre ++ linkage_directive_lines lib ++ [extern_anchor_line, ""] ++ mod_decl_lines lib ++ [""]) ∧
    extern_anchor_line = "extern \"C\" \x7b\x7d" := by
  refine ⟨fun h => ?_, fun h => ?_, ?_, ⟨preamble_lines lib.link_name, by rfl⟩, rfl⟩
  · simp [linkage_directive_lines, h]
  · simp [linkage_directive_lines, h]
  · unfold linkage_directive_lines
    by_cases h : lib.data.cfg_apple_link <;> simp [h]

/-- Concrete instantiation of the amended C2 theorem at a
`PlatformConditional` library. -/
theorem C2_amended_witness :
    linkage_directive_lines libPlatformCond =
      ["#[cfg_attr(feature = \"apple\", link(name = \"" ++ libPlatformCond.link_name ++ "\", kind = \"framework\"))]"] :=
  (C2_amended libPlatformCond).1 rfl

/-- A statement fragment of the unit splits off at any member statement. -/
theorem render_stmts_decomp (s : Stmt) (stmts : List Stmt) (hmem : s ∈ stmts) :
    ∃ pre post, render_stmts stmts = pre ++ (stmt_unit_text s ++ post) := by
  induction stmts with
  | nil => cases hmem
  | cons s0 rest ih =>
    rcases List.mem_cons.mp hmem with h | h
    · subst h
      exact ⟨"", render_stmts rest, by rw [String.empty_append]; rfl⟩
    · obtain ⟨pre, post, hdec⟩ := ih h
      refine ⟨stmt_unit_text s0 ++ pre, post, ?_⟩
      rw [render_stmts, hdec, String.append_assoc]

/-- Claim C4: for a Statement carrying an exported item, the capability
gate prefixed to its re-export line in the aggregator and the capability
gate prefixed to the statement's own declaration in its owning unit are
the same string, both formatted from the single stored `required_features`
value. -/
theorem C4_gate_consistency (file : File) (k : String) (s : Stmt) (item : ProvidedItem)
    (hmem : s ∈ file.stmts) (_hp : s.provided_item = some item) :
    (∃ tail, reexport_text k s item = s.required_features.cfg_gate_ln ++ tail) ∧
    (∃ pre post, file.render = pre ++ ((s.required_features.cfg_gate_ln ++ s.rendered) ++ post)) := by
  constructor
  · exact ⟨visibility item.name ++ " use self::__" ++ clean_file_name k ++ "::\x7b" ++
      item.name ++ "\x7d;", by rw [reexport_text]; simp [String.append_assoc]⟩
  · obtain ⟨pre, post, hdec⟩ := render_stmts_decomp s file.stmts hmem
    exact ⟨pre, post, by rw [File.render, hdec, stmt_unit_text, String.append_assoc]⟩

/-- A concrete statement, file and item used to instantiate C4. -/
def stmtFooThing : Stmt :=
  ⟨⟨["FooKit"]⟩, some ⟨"FooThing", some ("foo")⟩, "pub struct FooThing;\n"⟩

/-- Concrete instantiation of the C4 gate-consistency theorem. -/
theorem C4_gate_consistency_witness :
    (∃ tail, reexport_text ("foo") stmtFooThing ⟨"FooThing", some ("foo")⟩ =
      stmtFooThing.required_features.cfg_gate_ln ++ tail) ∧
    (∃ pre post, File.render ⟨[stmtFooThing]⟩ =
      pre ++ ((stmtFooThing.required_features.cfg_gate_ln ++ stmtFooThing.rendered) ++ post)) :=
  C4_gate_consistency ⟨[stmtFooThing]⟩ ("foo") stmtFooThing ⟨"FooThing", some ("foo")⟩
    (List.mem_singleton.mpr rfl) rfl

/-- One file's re-export walk aborts exactly when some statement's exported
item records an owning file other than the iterating key. -/
theorem file_reexports_eq_none_iff (k : String) (stmts : List Stmt) :
    file_reexports k stmts = none ↔
      ∃ s ∈ stmts, ∃ item, s.provided_item = some item ∧ item.file_name ≠ some k := by
  induction stmts with
  | nil => simp [file_reexports]
  | cons s rest ih =>
    cases hp : s.provided_item with
    | none =>
      simp only [file_reexports, hp]
      rw [ih]
      constructor
      · rintro ⟨s2, hs2, item, hitem, hne⟩
        exact ⟨s2, List.mem_cons_of_mem s hs2, item, hitem, hne⟩
      · rintro ⟨s2, hs2, item, hitem, hne⟩
        rcases List.mem_cons.mp hs2 with h | h
        · subst h; rw [hp] at hitem; cases hitem
        · exact ⟨s2, h, item, hitem, hne⟩
    | some item =>
      by_cases hf : item.file_name = some k
      · simp only [file_reexports, hp]
        rw [if_pos hf, Option.map_eq_none', ih]
        constructor
        · rintro ⟨s2, hs2, item2, hitem2, hne⟩
          exact ⟨s2, List.mem_cons_of_mem s hs2, item2, hitem2, hne⟩
        · rintro ⟨s2, hs2, item2, hitem2, hne⟩
          rcases List.mem_cons.mp hs2 with h | h
          · subst h; rw [hp] at hitem2
            cases hitem2
            exact absurd hf hne
          · exact ⟨s2, h, item2, hitem2, hne⟩
      · simp only [file_reexports, hp]
        rw [if_neg hf]
        simp only [true_iff]
        exact ⟨s, List.mem_cons_self s rest, item, hp, hf⟩

/-- The whole re-export section aborts exactly when some file's walk does. -/
theorem reexport_section_eq_none_iff (files : List (String × File)) :
    reexport_section files = none ↔
      ∃ kf ∈ files, ∃ s ∈ kf.2.stmts, ∃ item,
        s.provided_item = some item ∧ item.file_name ≠ some kf.1 := by
  induction files with
  | nil => simp [reexport_section]
  | cons kf rest ih =>
    obtain ⟨k, file⟩ := kf
    rw [reexport_section]
    cases hfr : file_reexports k file.stmts with
    | none =>
      simp only [true_iff]
      obtain ⟨s, hs, item, hitem, hne⟩ := (file_reexports_eq_none_iff k file.stmts).mp hfr
      exact ⟨(k, file), List.mem_cons_self _ rest, s, hs, item, hitem, hne⟩
    | some a =>
      simp only []
      rw [Option.map_eq_none', ih]
      constructor
      · rintro ⟨kf2, hkf2, s, hs, item, hitem, hne⟩
        exact ⟨kf2, List.mem_cons_of_mem _ hkf2, s, hs, item, hitem, hne⟩
      · rintro ⟨kf2, hkf2, s, hs, item, hitem, hne⟩
        rcases List.mem_cons.mp hkf2 with h | h
        · subst h
          have : file_reexports k file.stmts = none :=
            (file_reexports_eq_none_iff k file.stmts).mpr ⟨s, hs, item, hitem, hne⟩
          rw [hfr] at this; cases this
        · exact ⟨kf2, h, s, hs, item, hitem, hne⟩

/-- Claim C7: rendering the aggregator aborts (the embedded `assert_eq!`
fails) exactly when some statement carries an exported item whose recorded
owning file differs from the key of the file it is iterated under; when
every exported item's owning file matches, no abort occurs. -/
theorem C7_owning_file_assertion (lib : Library) :
    lib.render = none ↔
      ∃ kf ∈ lib.files, ∃ s ∈ kf.2.stmts, ∃ item,
        s.provided_item = some item ∧ item.file_name ≠ some kf.1 := by
  rw [Library.render, Option.map_eq_none']
  exact reexport_section_eq_none_iff lib.files

/-- Two strings whose character lists compare strictly are distinct. -/
theorem ne_of_dlt {a b : String} (h : a.data < b.data) : a ≠ b := by
  intro e
  rw [e] at h
  exact lt_irrefl _ h

/-- Inserting under a smaller key commutes past an insertion under a larger
key, on any association list. -/
theorem insertSorted_comm_of_lt {a b : String} (hab : a.data < b.data) (va vb : File) :
    ∀ m : List (String × File),
      insertSorted a va (insertSorted b vb m) = insertSorted b vb (insertSorted a va m) := by
  intro m
  induction m with
  | nil => simp [insertSorted, hab, lt_asymm hab, Ne.symm (ne_of_dlt hab)]
  | cons p rest ih =>
    obtain ⟨c, vc⟩ := p
    rcases lt_trichotomy b.data c.data with hbc | hbc | hbc
    · simp [insertSorted, hab, hbc, lt_trans hab hbc, lt_asymm hab, Ne.symm (ne_of_dlt hab)]
    · have hbceq : b = c := String.ext hbc
      subst hbceq
      simp [insertSorted, hab, lt_asymm hab, Ne.symm (ne_of_dlt hab)]
    · rcases lt_trichotomy a.data c.data with hac | hac | hac
      · simp [insertSorted, hab, hac, lt_asymm hbc, Ne.symm (ne_of_dlt hbc),
          lt_asymm hab, Ne.symm (ne_of_dlt hab)]
      · have haceq : a = c := String.ext hac
        subst haceq
        simp [insertSorted, lt_asymm hab, Ne.symm (ne_of_dlt hab)]
      · simp [insertSorted, lt_asymm hac, Ne.symm (ne_of_dlt hac), lt_asymm hbc,
          Ne.symm (ne_of_dlt hbc), ih]

/-- Insertions under distinct keys commute. -/
theorem insertSorted_comm {k1 k2 : String} (hne : k1 ≠ k2) (v1 v2 : File)
    (m : List (String × File)) :
    insertSorted k1 v1 (insertSorted k2 v2 m) = insertSorted k2 v2 (insertSorted k1 v1 m) := by
  rcases lt_trichotomy k1.data k2.data with h | h | h
  · exact insertSorted_comm_of_lt h v1 v2 m
  · exact absurd (String.ext h) hne
  · exact (insertSorted_comm_of_lt h v2 v1 m).symm

/-- Building the map from any two permutations of the same key-distinct
input produces the same association list. -/
theorem ofList_perm_eq {l1 l2 : List (String × File)} (hperm : l1.Perm l2)
    (hnodup : (l1.map Prod.fst).Nodup) (link : String) (d : LibraryData) :
    Library.ofList l1 link d = Library.ofList l2 link d := by
  unfold Library.ofList
  congr 1
  apply hperm.foldl_eq'
  intro x hx y hy z
  by_cases hxy : x.1 = y.1
  · have hxyeq : x = y := List.inj_on_of_nodup_map hnodup hx hy hxy
    subst hxyeq
    rfl
  · exact insertSorted_comm (Ne.symm hxy) y.2 x.2 z

/-- Claim C6: assembly is deterministic — for a fixed set of Files (with
their Statements) and fixed package metadata, the rendered aggregator and
the whole output run are identical regardless of the order in which
upstream hands over the Files, because ordering is imposed internally by
the sorted map. -/
theorem C6_deterministic_assembly (l1 l2 : List (String × File)) (hperm : l1.Perm l2)
    (hnodup : (l1.map Prod.fst).Nodup) (link : String) (d : LibraryData)
    (bad : List String) (dir : String) (fs : FS) :
    (Library.ofList l1 link d).render = (Library.ofList l2 link d).render ∧
    (Library.ofList l1 link d).output bad dir fs =
      (Library.ofList l2 link d).output bad dir fs := by
  rw [ofList_perm_eq hperm hnodup link d]
  exact ⟨rfl, rfl⟩

/-- A file with no statements, used in concrete instantiations. -/
def emptyFile : File := ⟨[]⟩

/-- Concrete instantiation of C6: handing over the same two files in the
two possible orders yields identical render and output. -/
theorem C6_deterministic_assembly_witness :
    (Library.ofList [(("B"), emptyFile), (("A"), emptyFile)] ("Foo") ⟨false⟩).render =
      (Library.ofList [(("A"), emptyFile), (("B"), emptyFile)] ("Foo") ⟨false⟩).render ∧
    (Library.ofList [(("B"), emptyFile), (("A"), emptyFile)] ("Foo") ⟨false⟩).output [] ("out") [] =
      (Library.ofList [(("A"), emptyFile), (("B"), emptyFile)] ("Foo") ⟨false⟩).output [] ("out") [] :=
  C6_deterministic_assembly [(("B"), emptyFile), (("A"), emptyFile)]
    [(("A"), emptyFile), (("B"), emptyFile)] (by decide) (by decide) ("Foo") ⟨false⟩ [] ("out") []

/-- Position of a key in the map's iteration order. -/
def keyIndex (lib : Library) (k : String) : Nat :=
  (lib.files.map Prod.fst).indexOf k

/-- `a`'s module declaration precedes `b`'s in the aggregator: declaration
pairs are emitted one per key in map iteration order (library.rs:102-106),
so emission position is key position. -/
abbrev declPrecedes (lib : Library) (a b : String) : Prop :=
  keyIndex lib a < keyIndex lib b

/-- A map whose raw keys `A+B` and `A_A` sanitize to `A_B` and `A_A`:
the raw order puts `A+B` first, the sanitized order would put `A_A`
first. -/
def libC1 : Library :=
  Library.ofList [(("A+B"), emptyFile), (("A_A"), emptyFile)] ("Foo") ⟨false⟩

/-- Claim C1 counterexample: in `libC1` the module declaration of `A+B`
precedes that of `A_A` (that is how the map iterates), yet
`sanitize(A+B) = A_B` is not lexicographically less than
`sanitize(A_A) = A_A` — the emission order is not the sanitized order. -/
theorem C1_counterexample :
    declPrecedes libC1 ("A+B") ("A_A") ∧
    ¬ clean_file_name ("A+B") < clean_file_name ("A_A") ∧
    mod_decl_lines libC1 =
      [path_attr_line ("A_B"), mod_decl_line ("A_B"),
       path_attr_line ("A_A"), mod_decl_line ("A_A")] := by
  refine ⟨by decide, ?_, by decide⟩
  rw [String.lt_iff_toList_lt]
  decide

/-- In a strictly sorted list, position order coincides with key order. -/
theorem sorted_indexOf_lt_iff :
    ∀ {l : List String}, l.Sorted (· < ·) →
      ∀ {a b : String}, a ∈ l → b ∈ l →
        (l.indexOf a < l.indexOf b ↔ a < b) := by
  intro l hs
  induction l with
  | nil => intro a b ha _; cases ha
  | cons h t ih =>
    intro a b ha hb
    rw [List.sorted_cons] at hs
    obtain ⟨hlt, hst⟩ := hs
    by_cases hah : a = h
    · subst hah
      by_cases hbh : b = a
      · subst hbh
        simp [lt_irrefl]
      · have hbt : b ∈ t := by
          rcases List.mem_cons.mp hb with h1 | h1
          · exact absurd h1 hbh
          · exact h1
        rw [List.indexOf_cons_self, List.indexOf_cons_ne t (fun e => hbh e.symm)]
        simp only [Nat.succ_eq_add_one]
        constructor
        · intro _; exact hlt b hbt
        · intro _; exact Nat.succ_pos _
    · have hat : a ∈ t := by
        rcases List.mem_cons.mp ha with h1 | h1
        · exact absurd h1 hah
        · exact h1
      by_cases hbh : b = h
      · subst hbh
        rw [List.indexOf_cons_self, List.indexOf_cons_ne t (fun e => hah e.symm)]
        constructor
        · intro hcon
          exact absurd hcon (Nat.not_lt_zero _)
        · intro hab
          exact absurd (lt_trans (hlt a hat) hab) (lt_irrefl b)
      · have hbt : b ∈ t := by
          rcases List.mem_cons.mp hb with h1 | h1
          · exact absurd h1 hbh
          · exact h1
        rw [List.indexOf_cons_ne t (fun e => hah e.symm),
            List.indexOf_cons_ne t (fun e => hbh e.symm)]
        rw [Nat.succ_lt_succ_iff]
        exact ih hst hat hbt

/-- Claim C1 (amended): module declarations are emitted one pair per file
identity in map-iteration order, and for identities `a` and `b` in the map
the declaration of `a` precedes that of `b` exactly when the raw
(unsanitized) identity `a` is lexicographically less than the raw identity
`b`. -/
theorem C1_amended (lib : Library)
    (hs : (lib.files.map Prod.fst).Sorted (· < ·))
    (a b : String)
    (ha : a ∈ lib.files.map Prod.fst) (hb : b ∈ lib.files.map Prod.fst) :
    declPrecedes lib a b ↔ a < b :=
  sorted_indexOf_lt_iff hs ha hb

/-- Concrete instantiation of the amended C1 theorem. -/
theorem C1_amended_witness :
    declPrecedes ⟨[(("A+B"), emptyFile), (("A_A"), emptyFile)], "Foo", ⟨false⟩⟩ ("A+B") ("A_A") := by
  have hlt : ("A+B" : String) < "A_A" := String.lt_iff_toList_lt.mpr (by decide)
  refine (C1_amended ⟨[(("A+B"), emptyFile), (("A_A"), emptyFile)], "Foo", ⟨false⟩⟩
    ?_ ("A+B") ("A_A") (by decide) (by decide)).mpr hlt
  simp only [List.map_cons, List.map_nil]
  refine List.sorted_cons.mpr ⟨?_, List.sorted_singleton _⟩
  intro b hb
  rw [List.mem_singleton] at hb
  subst hb
  exact hlt

/-- Reading right after a write at the same path yields the new content. -/
theorem fsGet_fsWrite_self (fs : FS) (p c : String) : fsGet (fsWrite fs p c) p = some c := by
  simp [fsGet, fsWrite]

/-- Reading at a different path is unaffected by a write. -/
theorem fsGet_fsWrite_ne (fs : FS) (p c q : String) (h : q ≠ p) :
    fsGet (fsWrite fs p c) q = fsGet fs q := by
  simp [fsGet, fsWrite, h]

/-- Per-file unit paths under one directory are distinct for distinct
sanitized names. -/
theorem unitPath_inj {dir n1 n2 : String} (h : unitPath dir n1 = unitPath dir n2) : n1 = n2 := by
  apply String.ext
  have hd := congrArg String.data h
  simp only [unitPath, String.data_append] at hd
  exact List.append_cancel_left (List.append_cancel_right hd)

/-- The aggregator path is the unit path of the reserved name `mod`. -/
theorem modPath_eq_unitPath (dir : String) : modPath dir = unitPath dir ("mod") := by
  apply String.ext
  simp only [unitPath, modPath, String.data_append, List.append_assoc]
  congr 1

/-- A per-file unit path coincides with the aggregator path exactly for the
reserved name `mod`. -/
theorem unitPath_eq_modPath_iff {dir n : String} : unitPath dir n = modPath dir ↔ n = "mod" := by
  rw [modPath_eq_unitPath]
  constructor
  · exact unitPath_inj
  · intro h
    rw [h]

/-- The per-file write loop leaves every path it does not target unchanged,
whether or not it stops at a failing write. -/
theorem writeFiles_frame (bad : List String) (dir : String) :
    ∀ (files : List (String × File)) (fs : FS) (q : String),
      (∀ kf ∈ files, unitPath dir (clean_file_name kf.1) ≠ q) →
      fsGet (writeFiles bad dir files fs).1 q = fsGet fs q := by
  intro files
  induction files with
  | nil => intro fs q _; rfl
  | cons p rest ih =>
    intro fs q hne
    obtain ⟨name, file⟩ := p
    simp only [writeFiles]
    by_cases hb : bad.contains (unitPath dir (clean_file_name name))
    · rw [if_pos hb]
    · rw [if_neg hb]
      rw [ih _ _ (fun kf hkf => hne kf (List.mem_cons_of_mem _ hkf))]
      exact fsGet_fsWrite_ne _ _ _ _
        (fun he => hne (name, file) (List.mem_cons_self _ _) he.symm)

/-- Without a failing path among the targets, the per-file loop reports no
error. -/
theorem writeFiles_no_error (bad : List String) (dir : String) :
    ∀ (files : List (String × File)) (fs : FS),
      (∀ kf ∈ files, bad.contains (unitPath dir (clean_file_name kf.1)) = false) →
      (writeFiles bad dir files fs).2 = none := by
  intro files
  induction files with
  | nil => intro fs _; rfl
  | cons p rest ih =>
    intro fs hbad
    obtain ⟨name, file⟩ := p
    have hb : bad.contains (unitPath dir (clean_file_name name)) = false :=
      hbad (name, file) (List.mem_cons_self _ _)
    simp only [writeFiles]
    rw [if_neg (by rw [hb]; exact Bool.false_ne_true)]
    exact ih _ (fun kf hkf => hbad kf (List.mem_cons_of_mem _ hkf))

/-- After a failure-free per-file loop with collision-free sanitized names,
every file's unit path holds exactly its freshly rendered text, whatever
the path held before. -/
theorem writeFiles_get (bad : List String) (dir : String) :
    ∀ (files : List (String × File)) (fs : FS),
      (∀ kf ∈ files, bad.contains (unitPath dir (clean_file_name kf.1)) = false) →
      (files.map (fun kf => clean_file_name kf.1)).Nodup →
      ∀ kf ∈ files,
        fsGet (writeFiles bad dir files fs).1 (unitPath dir (clean_file_name kf.1)) =
          some kf.2.render := by
  intro files
  induction files with
  | nil => intro fs _ _ kf hkf; cases hkf
  | cons p rest ih =>
    intro fs hbad hnodup kf hkf
    obtain ⟨name, file⟩ := p
    have hb : bad.contains (unitPath dir (clean_file_name name)) = false :=
      hbad _ (List.mem_cons_self _ _)
    simp only [writeFiles]
    rw [if_neg (by rw [hb]; exact Bool.false_ne_true)]
    rw [List.map_cons, List.nodup_cons] at hnodup
    obtain ⟨hnotin, hnd⟩ := hnodup
    rcases List.mem_cons.mp hkf with he | he
    · subst he
      rw [writeFiles_frame bad dir rest _ _ ?_]
      · exact fsGet_fsWrite_self _ _ _
      · intro kf2 hkf2 heq
        have hmem2 : clean_file_name kf2.1 ∈ List.map (fun kf => clean_file_name kf.1) rest :=
          List.mem_map_of_mem _ hkf2
        rw [unitPath_inj heq] at hmem2
        exact hnotin hmem2
    · exact ih _ (fun kf2 h2 => hbad kf2 (List.mem_cons_of_mem _ h2)) hnd kf he

/-- On a failure-free loop with a successful render and a writable
aggregator path, `output` ends `ok`, writing the aggregator last onto the
state holding all per-file units. -/
theorem output_ok (lib : Library) (bad : List String) (dir : String) (fs : FS) (s : String)
    (hw2 : (writeFiles bad dir lib.files fs).2 = none)
    (hrender : lib.render = some s)
    (hbadm : bad.contains (modPath dir) = false) :
    lib.output bad dir fs =
      ⟨fsWrite (writeFiles bad dir lib.files fs).1 (modPath dir) s, .ok⟩ := by
  rcases hw : writeFiles bad dir lib.files fs with ⟨fs2, err⟩
  rw [hw] at hw2
  cases err with
  | some e2 => simp at hw2
  | none =>
    simp only [Library.output, hw, hrender]
    rw [if_neg (by rw [hbadm]; exact Bool.false_ne_true)]

/-- If the per-file loop fails, `output` returns that error with the state
the loop reached; the aggregator step is never executed. -/
theorem output_err (lib : Library) (bad : List String) (dir : String) (fs : FS) (e : String)
    (hfail : (writeFiles bad dir lib.files fs).2 = some e) :
    lib.output bad dir fs = ⟨(writeFiles bad dir lib.files fs).1, .ioError e⟩ := by
  rcases hw : writeFiles bad dir lib.files fs with ⟨fs2, err⟩
  rw [hw] at hfail
  cases err with
  | none => simp at hfail
  | some e2 =>
    obtain rfl : e2 = e := Option.some.inj hfail
    simp only [Library.output, hw]

/-- Claim C9: output is full regeneration — starting from any prior
file-system state (arbitrary stale content anywhere), a successful run
leaves at every file's sanitized unit path exactly the freshly rendered
unit text, and at the aggregator path exactly the freshly rendered
aggregator, with no merging and no residue. -/
theorem C9_full_regeneration (lib : Library) (bad : List String) (dir : String) (fs : FS)
    (s : String)
    (hnodup : (lib.files.map (fun kf => clean_file_name kf.1)).Nodup)
    (hmod : ∀ kf ∈ lib.files, clean_file_name kf.1 ≠ ("mod"))
    (hbadu : ∀ kf ∈ lib.files, bad.contains (unitPath dir (clean_file_name kf.1)) = false)
    (hbadm : bad.contains (modPath dir) = false)
    (hrender : lib.render = some s) :
    (lib.output bad dir fs).outcome = .ok ∧
    (∀ kf ∈ lib.files,
      fsGet (lib.output bad dir fs).fs (unitPath dir (clean_file_name kf.1)) =
        some kf.2.render) ∧
    fsGet (lib.output bad dir fs).fs (modPath dir) = some s := by
  have hw2 : (writeFiles bad dir lib.files fs).2 = none :=
    writeFiles_no_error bad dir lib.files fs hbadu
  rw [output_ok lib bad dir fs s hw2 hrender hbadm]
  refine ⟨rfl, ?_, fsGet_fsWrite_self _ _ _⟩
  intro kf hkf
  rw [fsGet_fsWrite_ne _ _ _ _
    (fun he => hmod kf hkf (unitPath_eq_modPath_iff.mp he))]
  exact writeFiles_get bad dir lib.files fs hbadu hnodup kf hkf

/-- Claim C10: error propagation — if some per-file unit write fails, the
run returns that first I/O error immediately, the aggregator write step is
never reached, and (as no file identity may claim the package-reserved
name `mod`) the aggregator path on disk is left exactly as it was. -/
theorem C10_error_propagation (lib : Library) (bad : List String) (dir : String) (fs : FS)
    (e : String)
    (hmod : ∀ kf ∈ lib.files, clean_file_name kf.1 ≠ ("mod"))
    (hfail : (writeFiles bad dir lib.files fs).2 = some e) :
    lib.output bad dir fs = ⟨(writeFiles bad dir lib.files fs).1, .ioError e⟩ ∧
    fsGet (lib.output bad dir fs).fs (modPath dir) = fsGet fs (modPath dir) := by
  refine ⟨output_err lib bad dir fs e hfail, ?_⟩
  rw [output_err lib bad dir fs e hfail]
  exact writeFiles_frame bad dir lib.files fs (modPath dir)
    (fun kf hkf he => hmod kf hkf (unitPath_eq_modPath_iff.mp he))

/-- Module-declaration lines determine the sanitized name they declare. -/
theorem mod_decl_line_inj {n1 n2 : String} (h : mod_decl_line n1 = mod_decl_line n2) :
    n1 = n2 := by
  apply String.ext
  have hd := congrArg String.data h
  simp only [mod_decl_line, String.data_append] at hd
  exact List.append_cancel_left (List.append_cancel_right hd)

/-- Path-attribute lines determine the sanitized name they bind. -/
theorem path_attr_line_inj {n1 n2 : String} (h : path_attr_line n1 = path_attr_line n2) :
    n1 = n2 := by
  apply String.ext
  have hd := congrArg String.data h
  simp only [path_attr_line, String.data_append] at hd
  exact List.append_cancel_left (List.append_cancel_right hd)

/-- A path-attribute line is never a module-declaration line (they start
with different characters). -/
theorem path_attr_ne_mod_decl (x y : String) : path_attr_line x ≠ mod_decl_line y := by
  intro h
  have hd := congrArg String.data h
  simp only [path_attr_line, mod_decl_line, String.data_append] at hd
  simp only [List.cons_append] at hd
  injection hd with h1 _
  exact absurd h1 (by decide)

/-- How often a given module-declaration line occurs in the
module-declaration section: once per map entry carrying that sanitized
name. -/
theorem count_mod_decl_flat (n : String) :
    ∀ files : List (String × File),
      List.count (mod_decl_line n)
        (files.flatMap (fun p =>
          [path_attr_line (clean_file_name p.1), mod_decl_line (clean_file_name p.1)])) =
      List.count n (files.map (fun p => clean_file_name p.1)) := by
  intro files
  induction files with
  | nil => rfl
  | cons p rest ih =>
    simp only [List.flatMap_cons, List.map_cons, List.count_append, List.count_cons,
      List.count_nil, ih]
    have h1 : (path_attr_line (clean_file_name p.1) == mod_decl_line n) = false :=
      beq_eq_false_iff_ne.mpr (path_attr_ne_mod_decl _ _)
    have h2 : (mod_decl_line (clean_file_name p.1) == mod_decl_line n) =
        (clean_file_name p.1 == n) := by
      by_cases hc : clean_file_name p.1 = n
      · rw [hc]
        simp
      · rw [beq_eq_false_iff_ne.mpr (fun h => hc (mod_decl_line_inj h)),
          beq_eq_false_iff_ne.mpr hc]
    rw [h1, h2]
    simp only [Bool.false_eq_true, if_false, Nat.zero_add, beq_iff_eq]
    exact Nat.add_comm _ _

/-- How often a given path-attribute line occurs in the module-declaration
section: once per map entry carrying that sanitized name. -/
theorem count_path_attr_flat (n : String) :
    ∀ files : List (String × File),
      List.count (path_attr_line n)
        (files.flatMap (fun p =>
          [path_attr_line (clean_file_name p.1), mod_decl_line (clean_file_name p.1)])) =
      List.count n (files.map (fun p => clean_file_name p.1)) := by
  intro files
  induction files with
  | nil => rfl
  | cons p rest ih =>
    simp only [List.flatMap_cons, List.map_cons, List.count_append, List.count_cons,
      List.count_nil, ih]
    have h1 : (mod_decl_line (clean_file_name p.1) == path_attr_line n) = false :=
      beq_eq_false_iff_ne.mpr (Ne.symm (path_attr_ne_mod_decl _ _))
    have h2 : (path_attr_line (clean_file_name p.1) == path_attr_line n) =
        (clean_file_name p.1 == n) := by
      by_cases hc : clean_file_name p.1 = n
      · rw [hc]
        simp
      · rw [beq_eq_false_iff_ne.mpr (fun h => hc (path_attr_line_inj h)),
          beq_eq_false_iff_ne.mpr hc]
    rw [h1, h2]
    simp only [Bool.false_eq_true, if_false, Nat.zero_add, beq_iff_eq]
    exact Nat.add_comm _ _

/-- Every map entry's module declaration is present in the section. -/
theorem mod_decl_line_mem (lib : Library) (kf : String × File) (h : kf ∈ lib.files) :
    mod_decl_line (clean_file_name kf.1) ∈ mod_decl_lines lib := by
  unfold mod_decl_lines
  rw [List.mem_flatMap]
  exact ⟨kf, h, by simp⟩

/-- Claim C8: completeness of the assembled package — under collision-free
sanitized names, after a successful run every file identity in the map has
exactly one path-attribute line and exactly one module-declaration line in
the aggregator and exactly one output unit on disk at its sanitized name
with the fixed extension; every re-export line uses the `__`-prefixed
sanitized owning identity, whose module declaration is present; and the
sanitizer is applied alike in the path attribute, the module declaration
and the re-export path. -/
theorem C8_completeness (lib : Library) (bad : List String) (dir : String) (fs : FS)
    (s : String)
    (hnodup : (lib.files.map (fun kf => clean_file_name kf.1)).Nodup)
    (hmod : ∀ kf ∈ lib.files, clean_file_name kf.1 ≠ ("mod"))
    (hbadu : ∀ kf ∈ lib.files, bad.contains (unitPath dir (clean_file_name kf.1)) = false)
    (hbadm : bad.contains (modPath dir) = false)
    (hrender : lib.render = some s) :
    ∀ kf ∈ lib.files,
      List.count (path_attr_line (clean_file_name kf.1)) (mod_decl_lines lib) = 1 ∧
      List.count (mod_decl_line (clean_file_name kf.1)) (mod_decl_lines lib) = 1 ∧
      fsGet (lib.output bad dir fs).fs (unitPath dir (clean_file_name kf.1)) =
        some kf.2.render ∧
      (∀ st ∈ kf.2.stmts, ∀ item : ProvidedItem, st.provided_item = some item →
        reexport_text kf.1 st item =
          st.required_features.cfg_gate_ln ++ visibility item.name ++ " use self::__" ++
            clean_file_name kf.1 ++ "::\x7b" ++ item.name ++ "\x7d;" ∧
        mod_decl_line (clean_file_name kf.1) ∈ mod_decl_lines lib) := by
  intro kf hkf
  have hmem : clean_file_name kf.1 ∈ lib.files.map (fun p => clean_file_name p.1) :=
    List.mem_map_of_mem _ hkf
  have hcount : List.count (clean_file_name kf.1)
      (lib.files.map (fun p => clean_file_name p.1)) = 1 :=
    List.count_eq_one_of_mem hnodup hmem
  refine ⟨?_, ?_, ?_, ?_⟩
  · rw [mod_decl_lines, count_path_attr_flat, hcount]
  · rw [mod_decl_lines, count_mod_decl_flat, hcount]
  · have hw2 : (writeFiles bad dir lib.files fs).2 = none :=
      writeFiles_no_error bad dir lib.files fs hbadu
    rw [output_ok lib bad dir fs s hw2 hrender hbadm]
    rw [fsGet_fsWrite_ne _ _ _ _
      (fun he => hmod kf hkf (unitPath_eq_modPath_iff.mp he))]
    exact writeFiles_get bad dir lib.files fs hbadu hnodup kf hkf
  · intro st _ item _
    exact ⟨rfl, mod_decl_line_mem lib kf hkf⟩

/-- A concrete one-file, one-statement library for closed instantiations:
file `foo`, statement with empty capabilities exporting `FooThing`. -/
def stmtW : Stmt := ⟨⟨[]⟩, some ⟨"FooThing", some ("foo")⟩, "pub struct FooThing;\n"⟩

/-- The file holding `stmtW`. -/
def fileW : File := ⟨[stmtW]⟩

/-- The one-file library around `fileW`. -/
def libW : Library := ⟨[(("foo"), fileW)], "Foo", ⟨false⟩⟩

/-- The aggregator text `libW` renders to. -/
def sW : String :=
  joinln (aggregator_lines libW) ++
    ((reexport_text ("foo") stmtW ⟨"FooThing", some ("foo")⟩ ++ "") ++ "")

/-- `libW` renders successfully, to `sW`. -/
theorem libW_render : libW.render = some sW := rfl

/-- Concrete instantiation of the C8 completeness theorem at `libW`. -/
theorem C8_completeness_witness :
    List.count (path_attr_line (clean_file_name ("foo"))) (mod_decl_lines libW) = 1 ∧
    List.count (mod_decl_line (clean_file_name ("foo"))) (mod_decl_lines libW) = 1 ∧
    fsGet (libW.output [] ("out") []).fs (unitPath ("out") (clean_file_name ("foo"))) =
      some fileW.render ∧
    (∀ st ∈ fileW.stmts, ∀ item : ProvidedItem, st.provided_item = some item →
      reexport_text ("foo") st item =
        st.required_features.cfg_gate_ln ++ visibility item.name ++ " use self::__" ++
          clean_file_name ("foo") ++ "::\x7b" ++ item.name ++ "\x7d;" ∧
      mod_decl_line (clean_file_name ("foo")) ∈ mod_decl_lines libW) :=
  C8_completeness libW [] ("out") [] sW (by decide) (by decide) (by decide) (by decide)
    libW_render (("foo"), fileW) (by decide)

/-- Concrete instantiation of the C9 regeneration theorem at `libW`,
starting from stale content at both target paths. -/
theorem C9_full_regeneration_witness :
    (libW.output [] ("out")
        [(modPath ("out"), "stale"), (unitPath ("out") ("foo"), "old")]).outcome =
      Outcome.ok ∧
    fsGet (libW.output [] ("out")
        [(modPath ("out"), "stale"), (unitPath ("out") ("foo"), "old")]).fs
      (unitPath ("out") (clean_file_name ("foo"))) = some fileW.render ∧
    fsGet (libW.output [] ("out")
        [(modPath ("out"), "stale"), (unitPath ("out") ("foo"), "old")]).fs
      (modPath ("out")) = some sW := by
  obtain ⟨h1, h2, h3⟩ :=
    C9_full_regeneration libW [] ("out")
      [(modPath ("out"), "stale"), (unitPath ("out") ("foo"), "old")] sW
      (by decide) (by decide) (by decide) (by decide) libW_render
  exact ⟨h1, h2 (("foo"), fileW) (by decide), h3⟩

/-- Concrete instantiation of the C10 error-propagation theorem: the unit
write for `foo` fails, the run returns that error, and the stale aggregator
survives untouched. -/
theorem C10_error_propagation_witness :
    libW.output [unitPath ("out") ("foo")] ("out") [(modPath ("out"), "stale")] =
      ⟨(writeFiles [unitPath ("out") ("foo")] ("out") libW.files
          [(modPath ("out"), "stale")]).1,
        Outcome.ioError (unitPath ("out") ("foo"))⟩ ∧
    fsGet (libW.output [unitPath ("out") ("foo")] ("out")
        [(modPath ("out"), "stale")]).fs (modPath ("out")) =
      fsGet [(modPath ("out"), "stale")] (modPath ("out")) :=
  C10_error_propagation libW [unitPath ("out") ("foo")] ("out")
    [(modPath ("out"), "stale")] (unitPath ("out") ("foo")) (by decide) (by decide)

end HeaderTranslator
